import Mathlib

/-!
Verification model of `src/GalleryEngine.js` (repository Mike-Zheng/aiG).

The engine is a browser-side gallery: it loads a packed binary blob
(4-byte little-endian index length, UTF-8 JSON index, then a payload of
concatenated thumbnail/animation byte ranges), eagerly creates one Blob
URL per thumbnail, and on tap creates/destroys a single animation Blob
URL, with an IntersectionObserver (threshold 0) reclaiming the active
animation when its element leaves the viewport, and `dispose()` releasing
everything.

The embedding below is a faithful state-passing translation:
  * the raw `ArrayBuffer` is a `List Nat` of bytes;
  * `URL.createObjectURL` is a ghost allocator handing out handles
    `0, 1, 2, ...` and recording each handle's kind (thumbnail or
    animation) and backing bytes; `URL.revokeObjectURL` appends to an
    append-only revocation log, so "released exactly once" is
    `revoked.count h = 1`;
  * JS `Map` and JS objects are association lists with
    overwrite-in-place `set`;
  * a thrown JS exception is the `.error` branch of `Except`, carrying
    the engine state as mutated so far (JS mutation survives a throw);
  * `JSON.parse` is an arbitrary parameter `parseIdx`, since it is
    platform code, not repository code.
-/

namespace GalleryModel

abbrev Bytes := List Nat
abbrev ItemId := String
abbrev ElemId := Nat

/-- A byte range `{offset, length}` of the payload, as stored in an index
entry (`meta.thumb` / `meta.anim`). -/
structure Span where
  off : Nat
  len : Nat
deriving DecidableEq

/-- One parsed index entry: `{width, height, thumb, anim}`.  The `thumb`
and `anim` fields are `Option` because a malformed JSON entry may lack
them; accessing `.offset` on the missing field throws in JS. -/
structure Entry where
  width : Nat
  height : Nat
  thumb : Option Span
  anim : Option Span
deriving DecidableEq

/-- The parsed JSON index: an association list in JSON insertion order
(JS object keys are unique and iterate in insertion order). -/
abbrev IndexMap := List (ItemId × Entry)

/-- Kind tag (ghost data) recorded at each `URL.createObjectURL` call
site, to distinguish thumbnail handles from animation handles. -/
inductive HKind
  | thumb
  | anim
deriving DecidableEq

/-- A ghost record of one `URL.createObjectURL` call: the handle it
returned and the bytes backing the Blob. -/
structure Alloc where
  handle : Nat
  kind : HKind
  backing : Bytes
deriving DecidableEq

/-- `this.activeState` when populated: `{id, imgEl, animUrl}`.  The code
only ever stores all three fields together or resets all three to null,
so the model uses `Option ActiveSt`. -/
structure ActiveSt where
  id : ItemId
  imgEl : ElemId
  animUrl : Nat
deriving DecidableEq

/-- The whole engine state (fields of the `GalleryEngine` instance plus
ghost resource-accounting state). -/
structure Engine where
  /-- `this.buffer` (`none` = JS null). -/
  buffer : Option Bytes
  /-- `this.indexMap` (`none` = JS null). -/
  indexMap : Option IndexMap
  /-- `this.payloadStart`. -/
  payloadStart : Nat
  /-- `this.thumbUrls` (a JS `Map` id → Blob URL handle). -/
  thumbUrls : List (ItemId × Nat)
  /-- `this.activeState`. -/
  activeState : Option ActiveSt
  /-- The set of elements currently observed by `this.observer`. -/
  observed : List ElemId
  /-- Whether the delegated click listener is attached. -/
  listener : Bool
  /-- Ghost: every `URL.createObjectURL` call made so far, in order;
  the `k`-th allocation returns handle `k`. -/
  allocs : List Alloc
  /-- Ghost: the next fresh handle (= `allocs.length`). -/
  nextUrl : Nat
  /-- Ghost: append-only log of `URL.revokeObjectURL` calls. -/
  revoked : List Nat
  /-- The `src` attribute of each image element the engine has written
  to (`some none` would mean src set to JS undefined). -/
  srcs : List (ElemId × Option Nat)
  /-- Ghost: number of `console.warn` calls. -/
  warns : Nat
deriving DecidableEq

/-- The state established by the constructor. -/
def initEngine : Engine :=
  { buffer := none
    indexMap := none
    payloadStart := 0
    thumbUrls := []
    activeState := none
    observed := []
    listener := true
    allocs := []
    nextUrl := 0
    revoked := []
    srcs := []
    warns := 0 }

/-- Association-list lookup (JS `Map.get` / object property access). -/
def alookup {α β : Type} [DecidableEq α] : List (α × β) → α → Option β
  | [], _ => none
  | (k, v) :: rest, k' => if k = k' then some v else alookup rest k'

/-- Association-list update (JS `Map.set`): overwrite in place if the key
exists, else append. -/
def mapSet {α β : Type} [DecidableEq α] : List (α × β) → α → β → List (α × β)
  | [], k, v => [(k, v)]
  | (k', v') :: rest, k, v =>
      if k' = k then (k, v) :: rest else (k', v') :: mapSet rest k v

/-- `ArrayBuffer.slice(a, b)`: the bytes in `[a, b)`, clamped to the
buffer (out-of-range slicing clamps, it does not throw). -/
def sliceBytes (buf : Bytes) (a b : Nat) : Bytes :=
  (buf.take b).drop a

/-- `DataView.getUint32(0, true)`: the little-endian 32-bit word at
offset 0. -/
def readU32LE (bs : Bytes) : Nat :=
  bs.getD 0 0 % 256 + bs.getD 1 0 % 256 * 256 +
    bs.getD 2 0 % 256 * 65536 + bs.getD 3 0 % 256 * 16777216

/-- Ghost allocator for `URL.createObjectURL(new Blob([bs]))`: returns
the fresh handle and records the call. -/
def alloc (e : Engine) (k : HKind) (bs : Bytes) : Nat × Engine :=
  (e.nextUrl,
   { e with
      allocs := e.allocs ++ [⟨e.nextUrl, k, bs⟩]
      nextUrl := e.nextUrl + 1 })

/-- `stopActiveAnimation()`: no-op when idle; otherwise unobserve the
element, restore its src to the thumbnail URL, revoke the animation URL,
reset `activeState`. -/
def stopActiveAnimation (e : Engine) : Engine :=
  match e.activeState with
  | none => e
  | some a =>
      { e with
        observed := e.observed.filter (fun el => el ≠ a.imgEl)
        srcs := mapSet e.srcs a.imgEl (alookup e.thumbUrls a.id)
        revoked := e.revoked ++ [a.animUrl]
        activeState := none }

/-- `playAnimation(id, imgEl)`.  Error branches are thrown JS
exceptions: property access on a null `indexMap`, on a missing
`meta.anim`, or `slice` on a null buffer. -/
def playAnimation (e : Engine) (id : ItemId) (el : ElemId) :
    Except Engine Engine :=
  match e.indexMap with
  | none => .error e
  | some idx =>
      match alookup idx id with
      | none => .ok { e with warns := e.warns + 1 }
      | some meta =>
          match meta.anim with
          | none => .error e
          | some sp =>
              match e.buffer with
              | none => .error e
              | some buf =>
                  let sl := sliceBytes buf (e.payloadStart + sp.off)
                    (e.payloadStart + sp.off + sp.len)
                  let (url, e1) := alloc e .anim sl
                  .ok { e1 with
                        activeState := some ⟨id, el, url⟩
                        srcs := mapSet e1.srcs el (some url)
                        observed :=
                          if el ∈ e1.observed then e1.observed
                          else e1.observed ++ [el] }

/-- The tap event's `e.target`: its tag name check, its `dataset.id`,
and the element identity. -/
structure TapTarget where
  isImg : Bool
  datasetId : Option ItemId
  el : ElemId
deriving DecidableEq

/-- `handleTap(e)`: ignore non-image targets and falsy `dataset.id`
(missing or empty string); same-id tap stops; otherwise stop any active
animation, then play the tapped id. -/
def handleTap (e : Engine) (t : TapTarget) : Except Engine Engine :=
  match t.isImg, t.datasetId with
  | true, some id =>
      if id = "" then .ok e
      else if (match e.activeState with
               | some a => decide (a.id = id)
               | none => false) then
        .ok (stopActiveAnimation e)
      else
        let e1 :=
          if (match e.activeState with
              | some a => decide (a.id ≠ "")
              | none => false) then stopActiveAnimation e else e
        playAnimation e1 id t.el
  | _, _ => .ok e

/-- One `IntersectionObserverEntry`: the target element and its
intersection ratio with the viewport, in percent (100 = fully visible). -/
structure VEntry where
  target : ElemId
  ratio : Nat
deriving DecidableEq

/-- `entry.isIntersecting` for an observer built with `threshold: 0`:
true iff the target still intersects the viewport at all. -/
def isIntersecting (en : VEntry) : Bool := en.ratio ≠ 0

/-- The IntersectionObserver callback: for each entry, stop the active
animation if the entry is no longer intersecting and its target is the
active element. -/
def observerCallback (e : Engine) (entries : List VEntry) : Engine :=
  entries.foldl
    (fun acc en =>
      if ¬ isIntersecting en ∧ acc.activeState.map (fun a => a.imgEl) = some en.target
      then stopActiveAnimation acc else acc) e

/-- One loop iteration of `initThumbnails`: `meta.thumb.offset` throws
when `thumb` is missing; otherwise slice, create the Blob URL, and
`Map.set` it. -/
def initThumbEntry (e : Engine) (buf : Bytes) (id : ItemId) (meta : Entry) :
    Except Engine Engine :=
  match meta.thumb with
  | none => .error e
  | some sp =>
      let sl := sliceBytes buf (e.payloadStart + sp.off)
        (e.payloadStart + sp.off + sp.len)
      let (url, e1) := alloc e .thumb sl
      .ok { e1 with thumbUrls := mapSet e1.thumbUrls id url }

/-- The `for (const [id, meta] of Object.entries(this.indexMap))` loop:
a thrown exception aborts the remaining iterations. -/
def initThumbList (e : Engine) (buf : Bytes) : IndexMap → Except Engine Engine
  | [] => .ok e
  | (id, meta) :: rest =>
      match initThumbEntry e buf id meta with
      | .error e1 => .error e1
      | .ok e1 => initThumbList e1 buf rest

/-- `initThumbnails()`. -/
def initThumbnails (e : Engine) : Except Engine Engine :=
  match e.indexMap, e.buffer with
  | some idx, some buf => initThumbList e buf idx
  | _, _ => .error e

/-- The load failure taxonomy of the spec: `fetchError` for a bad HTTP
status, `formatError` for an unreadable header / truncated index region /
unparsable JSON, `thumbInitError` for the exception propagated out of
`initThumbnails`. -/
inductive LoadErr
  | fetchError
  | formatError
  | thumbInitError
deriving DecidableEq

/-- `load(binUrl)` after the fetch resolved: `fetchOk` is `res.ok`,
`bytes` the fetched body, `parseIdx` the platform `JSON.parse`
(returning `none` when the decoded text is not a valid index).  The
`.error` branch carries the engine state at the throw, since the `catch`
block rethrows after the mutations already made. -/
def load (parseIdx : Bytes → Option IndexMap) (fetchOk : Bool)
    (bytes : Bytes) (e : Engine) : Except (LoadErr × Engine) Engine :=
  if ¬ fetchOk then .error (.fetchError, e)
  else
    let e1 := { e with buffer := some bytes }
    if bytes.length < 4 then .error (.formatError, e1)
    else
      let headerLen := readU32LE bytes
      if bytes.length < 4 + headerLen then .error (.formatError, e1)
      else
        match parseIdx ((bytes.drop 4).take headerLen) with
        | none => .error (.formatError, e1)
        | some idx =>
            let e2 := { e1 with
                        indexMap := some idx
                        payloadStart := 4 + headerLen }
            match initThumbnails e2 with
            | .error e3 => .error (.thumbInitError, e3)
            | .ok e3 => .ok e3

/-- `dispose()`: stop the active animation, detach the click listener,
disconnect the observer, revoke every thumbnail URL, clear the map, drop
the buffer and index references. -/
def dispose (e : Engine) : Engine :=
  let e1 := stopActiveAnimation e
  { e1 with
    listener := false
    observed := []
    revoked := e1.revoked ++ e1.thumbUrls.map (fun p => p.2)
    thumbUrls := []
    buffer := none
    indexMap := none }

/-- `getItemData(id)`: null (plus a warning) when the index is unset or
the id unknown; otherwise the thumbnail URL and dimensions. -/
structure ItemData where
  url : Option Nat
  width : Nat
  height : Nat
deriving DecidableEq

/-- `getItemData(id)` (also returns the engine, to record the warning
side effect). -/
def getItemData (e : Engine) (id : ItemId) : Option ItemData × Engine :=
  match e.indexMap with
  | none => (none, { e with warns := e.warns + 1 })
  | some idx =>
      match alookup idx id with
      | none => (none, { e with warns := e.warns + 1 })
      | some meta => (some ⟨alookup e.thumbUrls id, meta.width, meta.height⟩, e)

/-- `getAllIds()`: `Object.keys(this.indexMap)` when loaded, else `[]`. -/
def getAllIds (e : Engine) : List ItemId :=
  match e.indexMap with
  | none => []
  | some idx => idx.map (fun p => p.1)

/-- An external event driving the engine after load: a tap, a direct
`stopActiveAnimation()` call, or an IntersectionObserver callback. -/
inductive Ev
  | tap (t : TapTarget)
  | stop
  | vis (entries : List VEntry)
deriving DecidableEq

/-- Run `handleTap`, keeping the mutated state even when the handler
throws (a browser swallows the exception; the object state survives). -/
def tapStep (e : Engine) (t : TapTarget) : Engine :=
  match handleTap e t with
  | .ok e1 => e1
  | .error e1 => e1

/-- Dispatch one event. -/
def stepEv (e : Engine) : Ev → Engine
  | .tap t => tapStep e t
  | .stop => stopActiveAnimation e
  | .vis entries => observerCallback e entries

/-- Run a sequence of events. -/
def runEvs (e : Engine) (evs : List Ev) : Engine := evs.foldl stepEv e

/-- Run a sequence of taps. -/
def runTaps (e : Engine) (ts : List TapTarget) : Engine := ts.foldl tapStep e

/-! ### Association-list lemmas -/

theorem alookup_mapSet_self {α β : Type} [DecidableEq α]
    (m : List (α × β)) (k : α) (v : β) : alookup (mapSet m k v) k = some v := by
  induction m with
  | nil => simp [mapSet, alookup]
  | cons p rest ih =>
      obtain ⟨k', v'⟩ := p
      by_cases h : k' = k
      · subst h; simp [mapSet, alookup]
      · simp [mapSet, alookup, h, ih]

theorem alookup_mapSet_ne {α β : Type} [DecidableEq α]
    (m : List (α × β)) (k i : α) (v : β) (h : k ≠ i) :
    alookup (mapSet m k v) i = alookup m i := by
  induction m with
  | nil => simp [mapSet, alookup, h]
  | cons p rest ih =>
      obtain ⟨k', v'⟩ := p
      by_cases hk : k' = k
      · subst hk; simp [mapSet, alookup, h]
      · by_cases hi : k' = i
        · subst hi; simp [mapSet, alookup, hk, ih]
        · simp [mapSet, alookup, hk, hi, ih]

theorem mapSet_eq_append {α β : Type} [DecidableEq α]
    (m : List (α × β)) (k : α) (v : β) (h : alookup m k = none) :
    mapSet m k v = m ++ [(k, v)] := by
  induction m with
  | nil => simp [mapSet]
  | cons p rest ih =>
      obtain ⟨k', v'⟩ := p
      by_cases hk : k' = k
      · subst hk; simp [alookup] at h
      · simp [alookup, hk] at h
        simp [mapSet, hk, ih h]

theorem alookup_append_none {α β : Type} [DecidableEq α]
    (m₁ m₂ : List (α × β)) (i : α) (h : alookup m₁ i = none) :
    alookup (m₁ ++ m₂) i = alookup m₂ i := by
  induction m₁ with
  | nil => simp
  | cons p rest ih =>
      obtain ⟨k', v'⟩ := p
      by_cases hk : k' = i
      · subst hk; simp [alookup] at h
      · simp [alookup, hk] at h ⊢
        exact ih h

theorem alookup_append_some {α β : Type} [DecidableEq α]
    (m₁ m₂ : List (α × β)) (i : α) (v : β) (h : alookup m₁ i = some v) :
    alookup (m₁ ++ m₂) i = some v := by
  induction m₁ with
  | nil => simp [alookup] at h
  | cons p rest ih =>
      obtain ⟨k', v'⟩ := p
      by_cases hk : k' = i
      · subst hk; simp [alookup] at h ⊢; exact h
      · simp [alookup, hk] at h ⊢
        exact ih h

theorem alookup_some_mem {α β : Type} [DecidableEq α]
    (m : List (α × β)) (k : α) (v : β) (h : alookup m k = some v) :
    (k, v) ∈ m := by
  induction m with
  | nil => simp [alookup] at h
  | cons p rest ih =>
      obtain ⟨k', v'⟩ := p
      by_cases hk : k' = k
      · subst hk
        simp [alookup] at h
        simp [h]
      · simp [alookup, hk] at h
        exact List.mem_cons_of_mem _ (ih h)

/-! ### Slice lemmas: the bytes of `ArrayBuffer.slice` -/

theorem sliceBytes_length (buf : Bytes) (a l : Nat) (h : a + l ≤ buf.length) :
    (sliceBytes buf a (a + l)).length = l := by
  simp [sliceBytes, List.length_drop, List.length_take]
  omega

theorem sliceBytes_get? (buf : Bytes) (a l k : Nat) (hk : k < l) :
    (sliceBytes buf a (a + l)).get? k = (buf.take (a + l)).get? (a + k) := by
  simp [sliceBytes, List.get?_drop]

theorem sliceBytes_get?_eq (buf : Bytes) (a l k : Nat) (hk : k < l) :
    (sliceBytes buf a (a + l)).get? k = buf.get? (a + k) := by
  rw [sliceBytes_get? buf a l k hk]
  exact List.get?_take (by omega)

/-! ### The resource-accounting invariant

`liveRefs e` lists the handles the engine can still reach: the values of
`thumbUrls` plus the active animation URL.  `Inv` says the ghost
allocator handed out handles `0..nextUrl-1`, the revocation log has no
duplicates, and a handle is unrevoked exactly when the engine still
references it — with thumbnail/animation kinds matching the reference
that keeps each handle alive. -/

def thumbVals (e : Engine) : List Nat := e.thumbUrls.map (fun p => p.2)

def activeRef (e : Engine) : List Nat :=
  match e.activeState with
  | some a => [a.animUrl]
  | none => []

def liveRefs (e : Engine) : List Nat := thumbVals e ++ activeRef e

/-- The number of animation Blob URLs created and not yet revoked
("alive animation resource handles"). -/
def liveAnimCount (e : Engine) : Nat :=
  (e.allocs.filter
    (fun a => decide (a.kind = HKind.anim) && decide (a.handle ∉ e.revoked))).length

structure Inv (e : Engine) : Prop where
  handles_range : e.allocs.map (fun a => a.handle) = List.range e.nextUrl
  revoked_lt : ∀ h ∈ e.revoked, h < e.nextUrl
  revoked_nodup : e.revoked.Nodup
  live_lt : ∀ h ∈ liveRefs e, h < e.nextUrl
  live_nodup : (liveRefs e).Nodup
  live_fresh : ∀ h ∈ liveRefs e, h ∉ e.revoked
  not_revoked_live : ∀ h, h < e.nextUrl → h ∉ e.revoked → h ∈ liveRefs e
  thumb_kind : ∀ h ∈ thumbVals e, ∃ bs, Alloc.mk h HKind.thumb bs ∈ e.allocs
  anim_kind : ∀ h ∈ activeRef e, ∃ bs, Alloc.mk h HKind.anim bs ∈ e.allocs
  active_nonempty : ∀ a, e.activeState = some a → a.id ≠ ""

theorem inv_init : Inv initEngine := by
  constructor <;> simp [initEngine, liveRefs, thumbVals, activeRef]

theorem stop_activeState (e : Engine) :
    (stopActiveAnimation e).activeState = none := by
  unfold stopActiveAnimation
  cases h : e.activeState <;> simp [h]

theorem stop_eq_of_idle (e : Engine) (h : e.activeState = none) :
    stopActiveAnimation e = e := by
  unfold stopActiveAnimation
  simp [h]

theorem stop_eq_of_active (e : Engine) (a : ActiveSt) (h : e.activeState = some a) :
    stopActiveAnimation e =
      { e with
        observed := e.observed.filter (fun el => el ≠ a.imgEl)
        srcs := mapSet e.srcs a.imgEl (alookup e.thumbUrls a.id)
        revoked := e.revoked ++ [a.animUrl]
        activeState := none } := by
  unfold stopActiveAnimation
  simp [h]

theorem stop_allocs (e : Engine) : (stopActiveAnimation e).allocs = e.allocs := by
  unfold stopActiveAnimation; cases h : e.activeState <;> simp

theorem stop_nextUrl (e : Engine) : (stopActiveAnimation e).nextUrl = e.nextUrl := by
  unfold stopActiveAnimation; cases h : e.activeState <;> simp

theorem stop_thumbUrls (e : Engine) : (stopActiveAnimation e).thumbUrls = e.thumbUrls := by
  unfold stopActiveAnimation; cases h : e.activeState <;> simp

theorem stop_buffer (e : Engine) : (stopActiveAnimation e).buffer = e.buffer := by
  unfold stopActiveAnimation; cases h : e.activeState <;> simp

theorem stop_indexMap (e : Engine) : (stopActiveAnimation e).indexMap = e.indexMap := by
  unfold stopActiveAnimation; cases h : e.activeState <;> simp

theorem stop_payloadStart (e : Engine) :
    (stopActiveAnimation e).payloadStart = e.payloadStart := by
  unfold stopActiveAnimation; cases h : e.activeState <;> simp

theorem stop_thumbVals (e : Engine) : thumbVals (stopActiveAnimation e) = thumbVals e := by
  unfold thumbVals; rw [stop_thumbUrls]

theorem activeRef_eq_nil (e : Engine) (h : e.activeState = none) : activeRef e = [] := by
  unfold activeRef; rw [h]

theorem activeRef_eq_single (e : Engine) (a : ActiveSt) (h : e.activeState = some a) :
    activeRef e = [a.animUrl] := by
  unfold activeRef; rw [h]

theorem stop_liveRefs (e : Engine) : liveRefs (stopActiveAnimation e) = thumbVals e := by
  unfold liveRefs
  rw [stop_thumbVals, activeRef_eq_nil _ (stop_activeState e), List.append_nil]

theorem stop_revoked_active (e : Engine) (a : ActiveSt) (h : e.activeState = some a) :
    (stopActiveAnimation e).revoked = e.revoked ++ [a.animUrl] := by
  rw [stop_eq_of_active e a h]

theorem inv_stop (e : Engine) (hInv : Inv e) : Inv (stopActiveAnimation e) := by
  cases h : e.activeState with
  | none => rw [stop_eq_of_idle e h]; exact hInv
  | some a =>
      have hmem : a.animUrl ∈ liveRefs e := by
        unfold liveRefs
        rw [activeRef_eq_single e a h]
        exact List.mem_append_right _ (by simp)
      have hthumbs : liveRefs e = thumbVals e ++ [a.animUrl] := by
        unfold liveRefs
        rw [activeRef_eq_single e a h]
      have hnd := hInv.live_nodup
      rw [hthumbs, List.nodup_append] at hnd
      constructor
      case handles_range => rw [stop_allocs, stop_nextUrl]; exact hInv.handles_range
      case revoked_lt =>
        intro x hx
        rw [stop_revoked_active e a h] at hx
        rw [stop_nextUrl]
        rcases List.mem_append.mp hx with hx | hx
        · exact hInv.revoked_lt x hx
        · have hxa : x = a.animUrl := by simpa using hx
          subst hxa; exact hInv.live_lt _ hmem
      case revoked_nodup =>
        rw [stop_revoked_active e a h, List.nodup_append]
        refine ⟨hInv.revoked_nodup, List.nodup_singleton _, ?_⟩
        intro x hx hx'
        have hxa : x = a.animUrl := by simpa using hx'
        subst hxa
        exact hInv.live_fresh _ hmem hx
      case live_lt =>
        intro x hx
        rw [stop_liveRefs] at hx
        rw [stop_nextUrl]
        exact hInv.live_lt x (hthumbs ▸ List.mem_append_left _ hx)
      case live_nodup =>
        rw [stop_liveRefs]
        exact hnd.1
      case live_fresh =>
        intro x hx hx'
        rw [stop_liveRefs] at hx
        rw [stop_revoked_active e a h] at hx'
        rcases List.mem_append.mp hx' with hc | hc
        · exact hInv.live_fresh x (hthumbs ▸ List.mem_append_left _ hx) hc
        · have hxa : x = a.animUrl := by simpa using hc
          subst hxa
          exact hnd.2.2 hx (by simp)
      case not_revoked_live =>
        intro x hlt hx
        rw [stop_nextUrl] at hlt
        rw [stop_revoked_active e a h] at hx
        rw [stop_liveRefs]
        have hx1 : x ∉ e.revoked := fun hc => hx (List.mem_append_left _ hc)
        have hx2 : x ≠ a.animUrl := fun hc =>
          hx (List.mem_append_right _ (by simp [hc]))
        have hlive := hInv.not_revoked_live x hlt hx1
        rw [hthumbs] at hlive
        rcases List.mem_append.mp hlive with h1 | h1
        · exact h1
        · have : x = a.animUrl := by simpa using h1
          exact absurd this hx2
      case thumb_kind =>
        intro x hx
        rw [stop_thumbVals] at hx
        rw [stop_allocs]
        exact hInv.thumb_kind x hx
      case anim_kind =>
        intro x hx
        rw [activeRef_eq_nil _ (stop_activeState e)] at hx
        simp at hx
      case active_nonempty =>
        intro a' ha'
        rw [stop_activeState] at ha'
        simp at ha'

/-! ### Equations for `playAnimation` and `handleTap` -/

theorem play_err_noidx (e : Engine) (id : ItemId) (el : ElemId)
    (h : e.indexMap = none) : playAnimation e id el = .error e := by
  unfold playAnimation; rw [h]

theorem play_unknown (e : Engine) (id : ItemId) (el : ElemId) (idx : IndexMap)
    (hidx : e.indexMap = some idx) (hmeta : alookup idx id = none) :
    playAnimation e id el = .ok { e with warns := e.warns + 1 } := by
  unfold playAnimation; rw [hidx]; simp [hmeta]

theorem play_err_noanim (e : Engine) (id : ItemId) (el : ElemId) (idx : IndexMap)
    (meta : Entry) (hidx : e.indexMap = some idx) (hmeta : alookup idx id = some meta)
    (hsp : meta.anim = none) : playAnimation e id el = .error e := by
  unfold playAnimation; rw [hidx]; simp [hmeta, hsp]

theorem play_err_nobuf (e : Engine) (id : ItemId) (el : ElemId) (idx : IndexMap)
    (meta : Entry) (sp : Span) (hidx : e.indexMap = some idx)
    (hmeta : alookup idx id = some meta) (hsp : meta.anim = some sp)
    (hbuf : e.buffer = none) : playAnimation e id el = .error e := by
  unfold playAnimation; rw [hidx]; simp [hmeta, hsp, hbuf]

theorem play_ok_spec (e : Engine) (id : ItemId) (el : ElemId) (idx : IndexMap)
    (meta : Entry) (sp : Span) (buf : Bytes) (hidx : e.indexMap = some idx)
    (hmeta : alookup idx id = some meta) (hsp : meta.anim = some sp)
    (hbuf : e.buffer = some buf) :
    playAnimation e id el = .ok
      { e with
        allocs := e.allocs ++
          [⟨e.nextUrl, HKind.anim,
            sliceBytes buf (e.payloadStart + sp.off) (e.payloadStart + sp.off + sp.len)⟩]
        nextUrl := e.nextUrl + 1
        activeState := some ⟨id, el, e.nextUrl⟩
        srcs := mapSet e.srcs el (some e.nextUrl)
        observed := if el ∈ e.observed then e.observed else e.observed ++ [el] } := by
  unfold playAnimation alloc; rw [hidx]; simp [hmeta, hsp, hbuf]

theorem handleTap_not_img (e : Engine) (t : TapTarget) (h : t.isImg = false) :
    handleTap e t = .ok e := by
  unfold handleTap
  rcases t with ⟨im, did, el⟩
  simp at h
  subst h
  rfl

theorem handleTap_no_id (e : Engine) (t : TapTarget) (h : t.datasetId = none) :
    handleTap e t = .ok e := by
  unfold handleTap
  rcases t with ⟨im, did, el⟩
  simp at h
  subst h
  cases im <;> rfl

theorem handleTap_empty_id (e : Engine) (t : TapTarget) (h : t.datasetId = some "") :
    handleTap e t = .ok e := by
  unfold handleTap
  rcases t with ⟨im, did, el⟩
  simp at h
  subst h
  cases im <;> simp

theorem handleTap_same (e : Engine) (t : TapTarget) (id : ItemId) (a : ActiveSt)
    (him : t.isImg = true) (hd : t.datasetId = some id) (hne : id ≠ "")
    (ha : e.activeState = some a) (heq : a.id = id) :
    handleTap e t = .ok (stopActiveAnimation e) := by
  unfold handleTap
  rcases t with ⟨im, did, el⟩
  simp at him hd
  subst him; subst hd
  simp [hne, ha, heq]

theorem handleTap_idle (e : Engine) (t : TapTarget) (id : ItemId)
    (him : t.isImg = true) (hd : t.datasetId = some id) (hne : id ≠ "")
    (ha : e.activeState = none) :
    handleTap e t = playAnimation e id t.el := by
  unfold handleTap
  rcases t with ⟨im, did, el⟩
  simp at him hd
  subst him; subst hd
  simp [hne, ha]

theorem handleTap_switch (e : Engine) (t : TapTarget) (id : ItemId) (a : ActiveSt)
    (him : t.isImg = true) (hd : t.datasetId = some id) (hne : id ≠ "")
    (ha : e.activeState = some a) (hdiff : a.id ≠ id) (hnemp : a.id ≠ "") :
    handleTap e t = playAnimation (stopActiveAnimation e) id t.el := by
  unfold handleTap
  rcases t with ⟨im, did, el⟩
  simp at him hd
  subst him; subst hd
  simp [hne, ha, hdiff, hnemp]

/-! ### Invariant preservation -/

theorem liveRefs_eq_thumbVals (e : Engine) (h : e.activeState = none) :
    liveRefs e = thumbVals e := by
  unfold liveRefs
  rw [activeRef_eq_nil e h, List.append_nil]

theorem inv_play_ok (e : Engine) (id : ItemId) (el : ElemId) (sl : Bytes)
    (hInv : Inv e) (hact : e.activeState = none) (hid : id ≠ "") :
    Inv { e with
          allocs := e.allocs ++ [⟨e.nextUrl, HKind.anim, sl⟩]
          nextUrl := e.nextUrl + 1
          activeState := some ⟨id, el, e.nextUrl⟩
          srcs := mapSet e.srcs el (some e.nextUrl)
          observed := if el ∈ e.observed then e.observed else e.observed ++ [el] } := by
  have hle : liveRefs e = thumbVals e := liveRefs_eq_thumbVals e hact
  have hlr : liveRefs
      { e with
        allocs := e.allocs ++ [Alloc.mk e.nextUrl HKind.anim sl]
        nextUrl := e.nextUrl + 1
        activeState := some ⟨id, el, e.nextUrl⟩
        srcs := mapSet e.srcs el (some e.nextUrl)
        observed := if el ∈ e.observed then e.observed else e.observed ++ [el] } =
      thumbVals e ++ [e.nextUrl] := by
    simp [liveRefs, thumbVals, activeRef]
  constructor
  case handles_range =>
    dsimp only
    rw [List.map_append, hInv.handles_range, List.range_succ]
    rfl
  case revoked_lt =>
    intro h hh
    exact Nat.lt_succ_of_lt (hInv.revoked_lt h hh)
  case revoked_nodup => exact hInv.revoked_nodup
  case live_lt =>
    intro h hh
    rw [hlr] at hh
    rcases List.mem_append.mp hh with hh | hh
    · exact Nat.lt_succ_of_lt (hInv.live_lt h (by rw [hle]; exact hh))
    · have : h = e.nextUrl := by simpa using hh
      subst this; exact Nat.lt_succ_self _
  case live_nodup =>
    rw [hlr, List.nodup_append]
    refine ⟨?_, List.nodup_singleton _, ?_⟩
    · have := hInv.live_nodup; rw [hle] at this; exact this
    · intro x hx hx'
      have hxx : x = e.nextUrl := by simpa using hx'
      subst hxx
      exact absurd (hInv.live_lt _ (by rw [hle]; exact hx)) (Nat.lt_irrefl _)
  case live_fresh =>
    intro h hh hrev
    rw [hlr] at hh
    rcases List.mem_append.mp hh with hh | hh
    · exact hInv.live_fresh h (by rw [hle]; exact hh) hrev
    · have : h = e.nextUrl := by simpa using hh
      subst this
      exact absurd (hInv.revoked_lt _ hrev) (Nat.lt_irrefl _)
  case not_revoked_live =>
    intro h hlt hrev
    rw [hlr]
    rcases Nat.lt_succ_iff_lt_or_eq.mp hlt with hlt | rfl
    · have := hInv.not_revoked_live h hlt hrev
      rw [hle] at this
      exact List.mem_append_left _ this
    · exact List.mem_append_right _ (by simp)
  case thumb_kind =>
    intro h hh
    have hh' : h ∈ thumbVals e := by
      simpa [thumbVals] using hh
    obtain ⟨bs, hbs⟩ := hInv.thumb_kind h hh'
    exact ⟨bs, List.mem_append_left _ hbs⟩
  case anim_kind =>
    intro h hh
    have hh' : h = e.nextUrl := by
      simpa [activeRef] using hh
    subst hh'
    exact ⟨sl, List.mem_append_right _ (by simp)⟩
  case active_nonempty =>
    intro a ha
    have h2 : ActiveSt.mk id el e.nextUrl = a := by simpa using ha
    subst h2
    exact hid

theorem inv_playStep (e : Engine) (id : ItemId) (el : ElemId)
    (hInv : Inv e) (hact : e.activeState = none) (hid : id ≠ "") :
    Inv (match playAnimation e id el with | .ok x => x | .error x => x) := by
  cases hidx : e.indexMap with
  | none => rw [play_err_noidx e id el hidx]; exact hInv
  | some idx =>
      cases hmeta : alookup idx id with
      | none =>
          rw [play_unknown e id el idx hidx hmeta]
          obtain ⟨h1, h2, h3, h4, h5, h6, h7, h8, h9, h10⟩ := hInv
          exact ⟨h1, h2, h3, h4, h5, h6, h7, h8, h9, h10⟩
      | some meta =>
          cases hsp : meta.anim with
          | none => rw [play_err_noanim e id el idx meta hidx hmeta hsp]; exact hInv
          | some sp =>
              cases hbuf : e.buffer with
              | none => rw [play_err_nobuf e id el idx meta sp hidx hmeta hsp hbuf]; exact hInv
              | some buf =>
                  rw [play_ok_spec e id el idx meta sp buf hidx hmeta hsp hbuf]
                  exact inv_play_ok e id el _ hInv hact hid

theorem inv_tapStep (e : Engine) (t : TapTarget) (hInv : Inv e) : Inv (tapStep e t) := by
  unfold tapStep
  cases him : t.isImg with
  | false => rw [handleTap_not_img e t him]; exact hInv
  | true =>
      cases hd : t.datasetId with
      | none => rw [handleTap_no_id e t hd]; exact hInv
      | some id =>
          by_cases hne : id = ""
          · subst hne; rw [handleTap_empty_id e t hd]; exact hInv
          · cases ha : e.activeState with
            | none =>
                rw [handleTap_idle e t id him hd hne ha]
                exact inv_playStep e id t.el hInv ha hne
            | some a =>
                by_cases heq : a.id = id
                · rw [handleTap_same e t id a him hd hne ha heq]
                  exact inv_stop e hInv
                · rw [handleTap_switch e t id a him hd hne ha heq
                    (hInv.active_nonempty a ha)]
                  exact inv_playStep (stopActiveAnimation e) id t.el
                    (inv_stop e hInv) (stop_activeState e) hne

theorem observerCallback_cons (e : Engine) (en : VEntry) (rest : List VEntry) :
    observerCallback e (en :: rest) =
      observerCallback
        (if ¬ isIntersecting en ∧ e.activeState.map (fun a => a.imgEl) = some en.target
         then stopActiveAnimation e else e) rest := rfl

theorem inv_observerCallback (e : Engine) (entries : List VEntry) (hInv : Inv e) :
    Inv (observerCallback e entries) := by
  induction entries generalizing e with
  | nil => exact hInv
  | cons en rest ih =>
      rw [observerCallback_cons]
      split
      · exact ih _ (inv_stop e hInv)
      · exact ih _ hInv

theorem inv_stepEv (e : Engine) (ev : Ev) (hInv : Inv e) : Inv (stepEv e ev) := by
  cases ev with
  | tap t => exact inv_tapStep e t hInv
  | stop => exact inv_stop e hInv
  | vis entries => exact inv_observerCallback e entries hInv

theorem inv_runEvs (e : Engine) (evs : List Ev) (hInv : Inv e) : Inv (runEvs e evs) := by
  induction evs generalizing e with
  | nil => exact hInv
  | cons ev rest ih => exact ih _ (inv_stepEv e ev hInv)

theorem inv_runTaps (e : Engine) (ts : List TapTarget) (hInv : Inv e) :
    Inv (runTaps e ts) := by
  induction ts generalizing e with
  | nil => exact hInv
  | cons t rest ih => exact ih _ (inv_tapStep e t hInv)

/-! ### `initThumbnails` lemmas -/

theorem initThumbEntry_err (e : Engine) (buf : Bytes) (id : ItemId) (meta : Entry)
    (h : meta.thumb = none) : initThumbEntry e buf id meta = .error e := by
  unfold initThumbEntry; rw [h]

theorem initThumbEntry_ok (e : Engine) (buf : Bytes) (id : ItemId) (meta : Entry)
    (sp : Span) (h : meta.thumb = some sp) :
    initThumbEntry e buf id meta = .ok
      { e with
        allocs := e.allocs ++
          [Alloc.mk e.nextUrl HKind.thumb
            (sliceBytes buf (e.payloadStart + sp.off) (e.payloadStart + sp.off + sp.len))]
        nextUrl := e.nextUrl + 1
        thumbUrls := mapSet e.thumbUrls id e.nextUrl } := by
  unfold initThumbEntry alloc; rw [h]

theorem initThumbList_cons (e : Engine) (buf : Bytes) (id : ItemId) (meta : Entry)
    (rest : IndexMap) :
    initThumbList e buf ((id, meta) :: rest) =
      match initThumbEntry e buf id meta with
      | .error e1 => .error e1
      | .ok e1 => initThumbList e1 buf rest := rfl

theorem initThumbList_frame (idx : IndexMap) :
    ∀ (e e1 : Engine) (buf : Bytes),
    (initThumbList e buf idx = .ok e1 ∨ initThumbList e buf idx = .error e1) →
    e1.payloadStart = e.payloadStart ∧ e1.buffer = e.buffer ∧
    e1.indexMap = e.indexMap ∧ e1.activeState = e.activeState ∧
    e1.revoked = e.revoked ∧ e1.observed = e.observed ∧
    e1.srcs = e.srcs ∧ e1.warns = e.warns ∧ e1.listener = e.listener := by
  induction idx with
  | nil =>
      intro e e1 buf h
      rcases h with h | h
      · unfold initThumbList at h
        cases h
        exact ⟨rfl, rfl, rfl, rfl, rfl, rfl, rfl, rfl, rfl⟩
      · unfold initThumbList at h
        cases h
  | cons p rest ih =>
      intro e e1 buf h
      obtain ⟨id, meta⟩ := p
      cases hsp : meta.thumb with
      | none =>
          rw [initThumbList_cons, initThumbEntry_err e buf id meta hsp] at h
          rcases h with h | h
          · cases h
          · cases h
            exact ⟨rfl, rfl, rfl, rfl, rfl, rfl, rfl, rfl, rfl⟩
      | some sp =>
          rw [initThumbList_cons, initThumbEntry_ok e buf id meta sp hsp] at h
          have := ih _ e1 buf (by simpa using h)
          simpa using this

theorem inv_thumb_push (e : Engine) (id : ItemId) (sl : Bytes)
    (hInv : Inv e) (hact : e.activeState = none) :
    Inv { e with
          allocs := e.allocs ++ [Alloc.mk e.nextUrl HKind.thumb sl]
          nextUrl := e.nextUrl + 1
          thumbUrls := e.thumbUrls ++ [(id, e.nextUrl)] } := by
  have hle : liveRefs e = thumbVals e := liveRefs_eq_thumbVals e hact
  have hlr : liveRefs
      { e with
        allocs := e.allocs ++ [Alloc.mk e.nextUrl HKind.thumb sl]
        nextUrl := e.nextUrl + 1
        thumbUrls := e.thumbUrls ++ [(id, e.nextUrl)] } =
      thumbVals e ++ [e.nextUrl] := by
    simp [liveRefs, thumbVals, activeRef, hact]
  have htv : thumbVals
      { e with
        allocs := e.allocs ++ [Alloc.mk e.nextUrl HKind.thumb sl]
        nextUrl := e.nextUrl + 1
        thumbUrls := e.thumbUrls ++ [(id, e.nextUrl)] } =
      thumbVals e ++ [e.nextUrl] := by
    simp [thumbVals]
  constructor
  case handles_range =>
    dsimp only
    rw [List.map_append, hInv.handles_range, List.range_succ]
    rfl
  case revoked_lt =>
    intro h hh
    exact Nat.lt_succ_of_lt (hInv.revoked_lt h hh)
  case revoked_nodup => exact hInv.revoked_nodup
  case live_lt =>
    intro h hh
    rw [hlr] at hh
    rcases List.mem_append.mp hh with hh | hh
    · exact Nat.lt_succ_of_lt (hInv.live_lt h (by rw [hle]; exact hh))
    · have : h = e.nextUrl := by simpa using hh
      subst this; exact Nat.lt_succ_self _
  case live_nodup =>
    rw [hlr, List.nodup_append]
    refine ⟨?_, List.nodup_singleton _, ?_⟩
    · have := hInv.live_nodup; rw [hle] at this; exact this
    · intro x hx hx'
      have hxx : x = e.nextUrl := by simpa using hx'
      subst hxx
      exact absurd (hInv.live_lt _ (by rw [hle]; exact hx)) (Nat.lt_irrefl _)
  case live_fresh =>
    intro h hh hrev
    rw [hlr] at hh
    rcases List.mem_append.mp hh with hh | hh
    · exact hInv.live_fresh h (by rw [hle]; exact hh) hrev
    · have : h = e.nextUrl := by simpa using hh
      subst this
      exact absurd (hInv.revoked_lt _ hrev) (Nat.lt_irrefl _)
  case not_revoked_live =>
    intro h hlt hrev
    rw [hlr]
    rcases Nat.lt_succ_iff_lt_or_eq.mp hlt with hlt | rfl
    · have := hInv.not_revoked_live h hlt hrev
      rw [hle] at this
      exact List.mem_append_left _ this
    · exact List.mem_append_right _ (by simp)
  case thumb_kind =>
    intro h hh
    rw [htv] at hh
    rcases List.mem_append.mp hh with hh | hh
    · obtain ⟨bs, hbs⟩ := hInv.thumb_kind h hh
      exact ⟨bs, List.mem_append_left _ hbs⟩
    · have : h = e.nextUrl := by simpa using hh
      subst this
      exact ⟨sl, List.mem_append_right _ (by simp)⟩
  case anim_kind =>
    intro h hh
    simp [activeRef, hact] at hh
  case active_nonempty =>
    intro a ha
    have ha' : e.activeState = some a := ha
    rw [hact] at ha'
    cases ha'

theorem initThumbList_inv (idx : IndexMap) :
    ∀ (e : Engine) (buf : Bytes), Inv e → e.activeState = none →
    (idx.map (fun p => p.1)).Nodup →
    (∀ i ∈ idx.map (fun p => p.1), alookup e.thumbUrls i = none) →
    ∀ e1, (initThumbList e buf idx = .ok e1 ∨ initThumbList e buf idx = .error e1) →
    Inv e1 := by
  induction idx with
  | nil =>
      intro e buf hInv _ _ _ e1 h
      rcases h with h | h
      · unfold initThumbList at h; cases h; exact hInv
      · unfold initThumbList at h; cases h
  | cons p rest ih =>
      intro e buf hInv hact hnd hfresh e1 h
      obtain ⟨id, meta⟩ := p
      cases hsp : meta.thumb with
      | none =>
          rw [initThumbList_cons, initThumbEntry_err e buf id meta hsp] at h
          rcases h with h | h
          · cases h
          · cases h; exact hInv
      | some sp =>
          rw [initThumbList_cons, initThumbEntry_ok e buf id meta sp hsp] at h
          have hid0 : alookup e.thumbUrls id = none := by
            apply hfresh
            simp
          rw [mapSet_eq_append e.thumbUrls id e.nextUrl hid0] at h
          have h2 : Inv { e with
              allocs := e.allocs ++
                [Alloc.mk e.nextUrl HKind.thumb
                  (sliceBytes buf (e.payloadStart + sp.off)
                    (e.payloadStart + sp.off + sp.len))]
              nextUrl := e.nextUrl + 1
              thumbUrls := e.thumbUrls ++ [(id, e.nextUrl)] } :=
            inv_thumb_push e id _ hInv hact
      -- freshness for the remaining keys
          have hnd' : (rest.map (fun p => p.1)).Nodup := by
            simp at hnd
            exact hnd.2
      -- the head key does not recur in the tail
          have hid_not : id ∉ rest.map (fun p => p.1) := by
            simp at hnd
            intro hc
            simp at hc
            obtain ⟨m, hm⟩ := hc
            exact absurd (hnd.1 m) (by simp [hm])
          apply ih _ buf h2 (by simpa using hact) hnd' ?_ e1 (by simpa using h)
          intro i hi
          have hne : id ≠ i := by
            intro hc
            subst hc
            exact hid_not hi
          have : alookup (e.thumbUrls ++ [(id, e.nextUrl)]) i = alookup e.thumbUrls i := by
            cases hl : alookup e.thumbUrls i with
            | none =>
                rw [alookup_append_none _ _ _ hl]
                simp [alookup, hne]
            | some v => rw [alookup_append_some _ _ _ _ hl]
          simp only
          rw [this]
          apply hfresh
          simp [hi]

theorem initThumbList_allocs_mono (idx : IndexMap) :
    ∀ (e e1 : Engine) (buf : Bytes),
    (initThumbList e buf idx = .ok e1 ∨ initThumbList e buf idx = .error e1) →
    ∃ l, e1.allocs = e.allocs ++ l := by
  induction idx with
  | nil =>
      intro e e1 buf h
      rcases h with h | h
      · unfold initThumbList at h; cases h; exact ⟨[], by simp⟩
      · unfold initThumbList at h; cases h
  | cons p rest ih =>
      intro e e1 buf h
      obtain ⟨id, meta⟩ := p
      cases hsp : meta.thumb with
      | none =>
          rw [initThumbList_cons, initThumbEntry_err e buf id meta hsp] at h
          rcases h with h | h
          · cases h
          · cases h; exact ⟨[], by simp⟩
      | some sp =>
          rw [initThumbList_cons, initThumbEntry_ok e buf id meta sp hsp] at h
          obtain ⟨l, hl⟩ := ih _ e1 buf (by simpa using h)
          refine ⟨[Alloc.mk e.nextUrl HKind.thumb
            (sliceBytes buf (e.payloadStart + sp.off)
              (e.payloadStart + sp.off + sp.len))] ++ l, ?_⟩
          rw [hl]
          simp

theorem initThumbList_lookup_preserve (idx : IndexMap) :
    ∀ (e e1 : Engine) (buf : Bytes) (i : ItemId),
    initThumbList e buf idx = .ok e1 → i ∉ idx.map (fun p => p.1) →
    alookup e1.thumbUrls i = alookup e.thumbUrls i := by
  induction idx with
  | nil =>
      intro e e1 buf i h _
      unfold initThumbList at h; cases h; rfl
  | cons p rest ih =>
      intro e e1 buf i h hi
      obtain ⟨id, meta⟩ := p
      cases hsp : meta.thumb with
      | none =>
          rw [initThumbList_cons, initThumbEntry_err e buf id meta hsp] at h
          cases h
      | some sp =>
          rw [initThumbList_cons, initThumbEntry_ok e buf id meta sp hsp] at h
          have hne : id ≠ i := by
            intro hc; subst hc
            exact hi (by simp)
          have hi' : i ∉ rest.map (fun p => p.1) := by
            intro hc; exact hi (by simp [hc])
          have := ih _ e1 buf i (by simpa using h) hi'
          rw [this]
          simp only
          exact alookup_mapSet_ne e.thumbUrls id i e.nextUrl hne

theorem initThumbList_backing (idx : IndexMap) :
    ∀ (e : Engine) (buf : Bytes), (idx.map (fun p => p.1)).Nodup →
    ∀ e1, initThumbList e buf idx = .ok e1 →
    ∀ id meta, (id, meta) ∈ idx →
    ∃ sp h bs, meta.thumb = some sp ∧ alookup e1.thumbUrls id = some h ∧
      Alloc.mk h HKind.thumb bs ∈ e1.allocs ∧
      bs = sliceBytes buf (e.payloadStart + sp.off) (e.payloadStart + sp.off + sp.len) := by
  induction idx with
  | nil =>
      intro e buf _ e1 _ id meta hmem
      simp at hmem
  | cons p rest ih =>
      intro e buf hnd e1 h id meta hmem
      obtain ⟨id0, m0⟩ := p
      cases hsp : m0.thumb with
      | none =>
          rw [initThumbList_cons, initThumbEntry_err e buf id0 m0 hsp] at h
          cases h
      | some sp =>
          rw [initThumbList_cons, initThumbEntry_ok e buf id0 m0 sp hsp] at h
          simp only at h
          have hid0_not : id0 ∉ rest.map (fun p => p.1) := by
            simp at hnd
            intro hc
            simp at hc
            obtain ⟨m, hm⟩ := hc
            exact absurd (hnd.1 m) (by simp [hm])
          rcases List.mem_cons.mp hmem with hmem | hmem
          · -- the head entry itself
            obtain ⟨h1, h2⟩ := Prod.mk.injEq .. ▸ hmem
            injection hmem with h1 h2
            subst h1
            subst h2
            refine ⟨sp, e.nextUrl, _, hsp, ?_, ?_, rfl⟩
            · rw [initThumbList_lookup_preserve rest _ e1 buf id h hid0_not]
              simp only
              exact alookup_mapSet_self e.thumbUrls id e.nextUrl
            · obtain ⟨l, hl⟩ := initThumbList_allocs_mono rest _ e1 buf (Or.inl h)
              rw [hl]
              simp
          · -- an entry of the tail
            have hnd' : (rest.map (fun p => p.1)).Nodup := by
              simp at hnd; exact hnd.2
            have := ih _ buf hnd' e1 h id meta hmem
            simpa using this

theorem initThumbList_aborts (pre : IndexMap) :
    ∀ (e : Engine) (buf : Bytes) (id0 : ItemId) (m0 : Entry) (post : IndexMap),
    (∀ p ∈ pre, p.2.thumb.isSome = true) → m0.thumb = none →
    ∃ e1, initThumbList e buf (pre ++ (id0, m0) :: post) = .error e1 ∧
      (∀ i, alookup e.thumbUrls i = none → i ∉ pre.map (fun p => p.1) →
        alookup e1.thumbUrls i = none) := by
  induction pre with
  | nil =>
      intro e buf id0 m0 post _ hm0
      refine ⟨e, ?_, ?_⟩
      · rw [List.nil_append, initThumbList_cons, initThumbEntry_err e buf id0 m0 hm0]
      · intro i hi _
        exact hi
  | cons p rest ih =>
      intro e buf id0 m0 post hwf hm0
      obtain ⟨id, meta⟩ := p
      obtain ⟨sp, hsp⟩ := Option.isSome_iff_exists.mp (hwf (id, meta) (by simp))
      have hwf' : ∀ p ∈ rest, p.2.thumb.isSome = true := by
        intro q hq
        exact hwf q (by simp [hq])
      obtain ⟨e1, he1, hlook⟩ := ih
        { e with
          allocs := e.allocs ++
            [Alloc.mk e.nextUrl HKind.thumb
              (sliceBytes buf (e.payloadStart + sp.off) (e.payloadStart + sp.off + sp.len))]
          nextUrl := e.nextUrl + 1
          thumbUrls := mapSet e.thumbUrls id e.nextUrl }
        buf id0 m0 post hwf' hm0
      refine ⟨e1, ?_, ?_⟩
      · rw [List.cons_append, initThumbList_cons, initThumbEntry_ok e buf id meta sp hsp]
        exact he1
      · intro i hi hpre
        have hne : id ≠ i := by
          intro hc; subst hc
          exact hpre (by simp)
        apply hlook i ?_ (by intro hc; exact hpre (by simp [hc]))
        simp only
        rw [alookup_mapSet_ne e.thumbUrls id i e.nextUrl hne]
        exact hi

/-! ### `load` lemmas -/

theorem load_ok_spec (parseIdx : Bytes → Option IndexMap) (fetchOk : Bool)
    (bytes : Bytes) (e e1 : Engine) (h : load parseIdx fetchOk bytes e = .ok e1) :
    ∃ idx, parseIdx ((bytes.drop 4).take (readU32LE bytes)) = some idx ∧
      ¬ bytes.length < 4 + readU32LE bytes ∧
      initThumbList
        { e with
          buffer := some bytes
          indexMap := some idx
          payloadStart := 4 + readU32LE bytes } bytes idx = .ok e1 := by
  unfold load at h
  dsimp only at h
  split at h
  · cases h
  · split at h
    · cases h
    · split at h
      · cases h
      · rename_i hlen
        split at h
        · cases h
        · rename_i idx hparse
          refine ⟨idx, hparse, hlen, ?_⟩
          unfold initThumbnails at h
          split at h
          · cases h
          · rename_i e3 hok
            simp only at hok
            cases h
            exact hok

theorem load_ok_frame (parseIdx : Bytes → Option IndexMap) (fetchOk : Bool)
    (bytes : Bytes) (e e1 : Engine) (h : load parseIdx fetchOk bytes e = .ok e1) :
    e1.payloadStart = 4 + readU32LE bytes ∧ e1.buffer = some bytes ∧
    (∃ idx, parseIdx ((bytes.drop 4).take (readU32LE bytes)) = some idx ∧
      e1.indexMap = some idx) ∧
    e1.activeState = e.activeState ∧ e1.revoked = e.revoked ∧
    e1.srcs = e.srcs ∧ e1.observed = e.observed := by
  obtain ⟨idx, hparse, hlen, hrun⟩ := load_ok_spec parseIdx fetchOk bytes e e1 h
  have hf := initThumbList_frame idx _ e1 bytes (Or.inl hrun)
  refine ⟨?_, ?_, ⟨idx, hparse, ?_⟩, ?_, ?_, ?_, ?_⟩
  · rw [hf.1]
  · rw [hf.2.1]
  · rw [hf.2.2.1]
  · rw [hf.2.2.2.1]
  · rw [hf.2.2.2.2.1]
  · rw [hf.2.2.2.2.2.2.1]
  · rw [hf.2.2.2.2.2.1]

theorem load_init_inv (parseIdx : Bytes → Option IndexMap) (bytes : Bytes) (e1 : Engine)
    (hpk : ∀ idx, parseIdx ((bytes.drop 4).take (readU32LE bytes)) = some idx →
      (idx.map (fun p => p.1)).Nodup)
    (h : load parseIdx true bytes initEngine = .ok e1) :
    Inv e1 ∧ e1.activeState = none := by
  obtain ⟨idx, hparse, hlen, hrun⟩ := load_ok_spec parseIdx true bytes initEngine e1 h
  have hInv2 : Inv
      { initEngine with
        buffer := some bytes
        indexMap := some idx
        payloadStart := 4 + readU32LE bytes } := by
    constructor <;> simp [initEngine, liveRefs, thumbVals, activeRef]
  refine ⟨initThumbList_inv idx _ bytes hInv2 rfl (hpk idx hparse) ?_ e1 (Or.inl hrun), ?_⟩
  · intro i _
    rfl
  · have hf := initThumbList_frame idx _ e1 bytes (Or.inl hrun)
    rw [hf.2.2.2.1]
    rfl

/-! ### Counting live animation handles -/

theorem length_le_one_of_nodup_const {l : List Nat} {u : Nat}
    (hnd : l.Nodup) (hall : ∀ x ∈ l, x = u) : l.length ≤ 1 := by
  cases l with
  | nil => simp
  | cons x xs =>
      cases xs with
      | nil => simp
      | cons y ys =>
          exfalso
          have hx : x = u := hall x (by simp)
          have hy : y = u := hall y (by simp)
          subst hx; subst hy
          simp at hnd

theorem alloc_handle_lt (e : Engine) (hInv : Inv e) (a : Alloc) (ha : a ∈ e.allocs) :
    a.handle < e.nextUrl := by
  have : a.handle ∈ e.allocs.map (fun x => x.handle) := List.mem_map_of_mem _ ha
  rw [hInv.handles_range] at this
  exact List.mem_range.mp this

theorem live_anim_in_activeRef (e : Engine) (hInv : Inv e) (a : Alloc)
    (ha : a ∈ e.allocs) (hk : a.kind = HKind.anim) (hr : a.handle ∉ e.revoked) :
    a.handle ∈ activeRef e := by
  have hlt : a.handle < e.nextUrl := alloc_handle_lt e hInv a ha
  have hlive := hInv.not_revoked_live a.handle hlt hr
  unfold liveRefs at hlive
  rcases List.mem_append.mp hlive with hth | hact
  · exfalso
    obtain ⟨bs, hbs⟩ := hInv.thumb_kind _ hth
    have hnd : (e.allocs.map (fun x => x.handle)).Nodup := by
      rw [hInv.handles_range]; exact List.nodup_range _
    have heq := List.inj_on_of_nodup_map hnd ha hbs rfl
    rw [heq] at hk
    simp at hk
  · exact hact

theorem liveAnim_idle (e : Engine) (hInv : Inv e) (hact : e.activeState = none) :
    liveAnimCount e = 0 := by
  unfold liveAnimCount
  rw [List.length_eq_zero]
  rw [List.eq_nil_iff_forall_not_mem]
  intro a hmem
  rw [List.mem_filter] at hmem
  obtain ⟨ha, hp⟩ := hmem
  simp only [Bool.and_eq_true, decide_eq_true_eq] at hp
  have := live_anim_in_activeRef e hInv a ha hp.1 hp.2
  rw [activeRef_eq_nil e hact] at this
  simp at this

theorem liveAnim_active (e : Engine) (hInv : Inv e) (a : ActiveSt)
    (hact : e.activeState = some a) : liveAnimCount e = 1 := by
  have hmemLive : a.animUrl ∈ liveRefs e := by
    unfold liveRefs
    rw [activeRef_eq_single e a hact]
    exact List.mem_append_right _ (by simp)
  have hfresh : a.animUrl ∉ e.revoked := hInv.live_fresh _ hmemLive
  obtain ⟨bs, hbs⟩ := hInv.anim_kind a.animUrl
    (by rw [activeRef_eq_single e a hact]; simp)
  have hle : liveAnimCount e ≤ 1 := by
    unfold liveAnimCount
    have hsub : ((e.allocs.filter
        (fun x => decide (x.kind = HKind.anim) && decide (x.handle ∉ e.revoked))).map
          (fun x => x.handle)).Sublist (e.allocs.map (fun x => x.handle)) :=
      (List.filter_sublist e.allocs).map _
    have hnd : ((e.allocs.filter
        (fun x => decide (x.kind = HKind.anim) && decide (x.handle ∉ e.revoked))).map
          (fun x => x.handle)).Nodup :=
      hsub.nodup (by rw [hInv.handles_range]; exact List.nodup_range _)
    have hall : ∀ x ∈ (e.allocs.filter
        (fun x => decide (x.kind = HKind.anim) && decide (x.handle ∉ e.revoked))).map
          (fun x => x.handle), x = a.animUrl := by
      intro x hx
      rw [List.mem_map] at hx
      obtain ⟨al, hal, hx⟩ := hx
      rw [List.mem_filter] at hal
      obtain ⟨hal, hp⟩ := hal
      simp only [Bool.and_eq_true, decide_eq_true_eq] at hp
      have := live_anim_in_activeRef e hInv al hal hp.1 hp.2
      rw [activeRef_eq_single e a hact] at this
      simp at this
      rw [← hx]
      exact this
    have := length_le_one_of_nodup_const hnd hall
    rwa [List.length_map] at this
  have hge : 1 ≤ liveAnimCount e := by
    unfold liveAnimCount
    have hmem : Alloc.mk a.animUrl HKind.anim bs ∈ e.allocs.filter
        (fun x => decide (x.kind = HKind.anim) && decide (x.handle ∉ e.revoked)) := by
      rw [List.mem_filter]
      exact ⟨hbs, by simp [hfresh]⟩
    calc 1 = [Alloc.mk a.animUrl HKind.anim bs].length := rfl
    _ ≤ _ := List.length_le_of_sublist (List.singleton_sublist.mpr hmem)
  omega

/-! ### `dispose` lemmas -/

theorem dispose_allocs (e : Engine) : (dispose e).allocs = e.allocs := stop_allocs e

theorem dispose_nextUrl (e : Engine) : (dispose e).nextUrl = e.nextUrl := stop_nextUrl e

theorem dispose_revoked (e : Engine) :
    (dispose e).revoked = (stopActiveAnimation e).revoked ++ thumbVals e := by
  have : (dispose e).revoked =
      (stopActiveAnimation e).revoked ++ thumbVals (stopActiveAnimation e) := rfl
  rw [this, stop_thumbVals]

theorem dispose_thumbUrls (e : Engine) : (dispose e).thumbUrls = [] := rfl

theorem dispose_buffer (e : Engine) : (dispose e).buffer = none := rfl

theorem dispose_indexMap (e : Engine) : (dispose e).indexMap = none := rfl

theorem dispose_activeState (e : Engine) : (dispose e).activeState = none :=
  stop_activeState e

theorem dispose_releases (e : Engine) (hInv : Inv e) :
    ∀ a ∈ (dispose e).allocs, (dispose e).revoked.count a.handle = 1 := by
  intro a ha
  rw [dispose_allocs] at ha
  have hInvG : Inv (stopActiveAnimation e) := inv_stop e hInv
  have hlt : a.handle < (stopActiveAnimation e).nextUrl :=
    alloc_handle_lt _ hInvG a (by rw [stop_allocs]; exact ha)
  have hthumbsLive : liveRefs (stopActiveAnimation e) = thumbVals e := stop_liveRefs e
  have hthumbsNodup : (thumbVals e).Nodup := by
    have := hInvG.live_nodup
    rwa [hthumbsLive] at this
  rw [dispose_revoked, List.count_append]
  by_cases hr : a.handle ∈ (stopActiveAnimation e).revoked
  · have h1 : (stopActiveAnimation e).revoked.count a.handle = 1 :=
      List.count_eq_one_of_mem hInvG.revoked_nodup hr
    have h2 : (thumbVals e).count a.handle = 0 := by
      rw [List.count_eq_zero]
      intro hc
      exact hInvG.live_fresh a.handle (by rw [hthumbsLive]; exact hc) hr
    omega
  · have hlive := hInvG.not_revoked_live a.handle hlt hr
    rw [hthumbsLive] at hlive
    have h1 : (stopActiveAnimation e).revoked.count a.handle = 0 := by
      rw [List.count_eq_zero]; exact hr
    have h2 : (thumbVals e).count a.handle = 1 :=
      List.count_eq_one_of_mem hthumbsNodup hlive
    omega

/-! ### Concrete example data

A two-entry packed blob in the documented format: 4-byte little-endian
index length, index text (stood in for by two bytes, which the
`JSON.parse` parameter maps to the parsed index), then 17 payload bytes.
Entry "a": thumbnail at payload `[0,4)`, animation at `[4,12)`;
entry "b": thumbnail at `[12,14)`, animation at `[14,17)`. -/

def exampleIdx : IndexMap :=
  [("a", ⟨10, 10, some ⟨0, 4⟩, some ⟨4, 8⟩⟩),
   ("b", ⟨7, 9, some ⟨12, 2⟩, some ⟨14, 3⟩⟩)]

def exampleJson : Bytes := [123, 125]

def examplePayload : Bytes := [50, 51, 52, 53, 54, 55, 56, 57, 58, 59, 60, 61, 62, 63, 64, 65, 66]

def exampleBlob : Bytes := [2, 0, 0, 0] ++ exampleJson ++ examplePayload

/-- A concrete stand-in for `JSON.parse`: decodes the example index
text and nothing else. -/
def exampleParse : Bytes → Option IndexMap :=
  fun bs => if bs = exampleJson then some exampleIdx else none

/-- The engine after a successful `load` of the example blob. -/
def exampleLoaded : Engine :=
  match load exampleParse true exampleBlob initEngine with
  | .ok e => e
  | .error p => p.2

/-- The engine after the example load followed by a tap on entry "a"
(image element 5): `Playing("a")` with animation handle 2. -/
def ePlayA : Engine := tapStep exampleLoaded ⟨true, some "a", 5⟩

/-- A malformed index: entry "a" lacks its `thumb` field, entry "b" is
well-formed. -/
def c4Idx : IndexMap :=
  [("a", ⟨1, 1, none, some ⟨0, 1⟩⟩), ("b", ⟨1, 1, some ⟨0, 4⟩, some ⟨4, 8⟩⟩)]

/-- An engine holding the malformed index, about to materialize
thumbnails. -/
def c4Engine : Engine :=
  { initEngine with indexMap := some c4Idx, buffer := some examplePayload }

/-- The state in which `initThumbnails` threw on the malformed entry. -/
def c4ErrState : Engine :=
  match initThumbnails c4Engine with
  | .ok e => e
  | .error e => e

/-- The engine after loading the example blob twice (the second load
overwrites the thumbnail map without revoking the first load's
handles). -/
def c5Twice : Engine :=
  match load exampleParse true exampleBlob exampleLoaded with
  | .ok e => e
  | .error p => p.2

/-- `dispose()` after the double load. -/
def c5Final : Engine := dispose c5Twice

/-! ### The claims -/

/-- C10: on an engine whose load has not yet succeeded (or after
`dispose`, which resets `indexMap` to null), `getAllIds()` returns the
empty sequence and `getItemData(id)` returns null for every id; both are
total because they guard on `indexMap` being unset. -/
theorem c10_queries_safe_unloaded (e : Engine) (h : e.indexMap = none) :
    getAllIds e = [] ∧ ∀ id, (getItemData e id).1 = none := by
  constructor
  · unfold getAllIds; rw [h]
  · intro id; unfold getItemData; rw [h]

theorem c10_witness :
    initEngine.indexMap = none ∧ (dispose ePlayA).indexMap = none ∧
    getAllIds initEngine = [] ∧ (getItemData initEngine "missing").1 = none ∧
    getAllIds (dispose ePlayA) = [] ∧ (getItemData (dispose ePlayA) "a").1 = none :=
  ⟨rfl, rfl,
   (c10_queries_safe_unloaded initEngine rfl).1,
   (c10_queries_safe_unloaded initEngine rfl).2 "missing",
   (c10_queries_safe_unloaded (dispose ePlayA) rfl).1,
   (c10_queries_safe_unloaded (dispose ePlayA) rfl).2 "a"⟩

/-- C6: for every blob whose total byte length is shorter than its
declared header-plus-index length (4 plus the little-endian uint32 at
offset 0), `load` fails with a `FormatError` (the model's label for the
thrown `RangeError`/parse error); the only mutation is storing the raw
buffer: the index map stays unset and the payload base is untouched. -/
theorem c6_truncated_blob_formatError (parseIdx : Bytes → Option IndexMap)
    (bytes : Bytes) (e : Engine) (hidx : e.indexMap = none)
    (hshort : bytes.length < 4 + readU32LE bytes) :
    load parseIdx true bytes e = .error (.formatError, { e with buffer := some bytes }) ∧
    ({ e with buffer := some bytes } : Engine).indexMap = none ∧
    ({ e with buffer := some bytes } : Engine).payloadStart = e.payloadStart := by
  refine ⟨?_, by simpa using hidx, rfl⟩
  unfold load
  by_cases h4 : bytes.length < 4
  · simp [h4]
  · simp [h4, hshort]

theorem c6_witness :
    ([100, 0, 0, 0] : Bytes).length < 4 + readU32LE [100, 0, 0, 0] ∧
    load exampleParse true [100, 0, 0, 0] initEngine =
      .error (.formatError, { initEngine with buffer := some [100, 0, 0, 0] }) ∧
    ({ initEngine with buffer := some [100, 0, 0, 0] } : Engine).indexMap = none :=
  ⟨by decide,
   (c6_truncated_blob_formatError exampleParse [100, 0, 0, 0] initEngine rfl (by decide)).1,
   (c6_truncated_blob_formatError exampleParse [100, 0, 0, 0] initEngine rfl (by decide)).2.1⟩

/-- C2 as stated is false: a tap on an unknown id while an animation is
playing does change state — `handleTap` stops the active animation
before `playAnimation` discovers the id is unknown.  Concretely: playing
"a", tapping unknown id "zz" leaves the engine idle. -/
theorem c2_counterexample :
    alookup exampleIdx "zz" = none ∧
    ePlayA.indexMap = some exampleIdx ∧
    ePlayA.activeState = some ⟨"a", 5, 2⟩ ∧
    (tapStep ePlayA ⟨true, some "zz", 6⟩).activeState = none := by
  exact ⟨by decide, by decide, by decide, by decide⟩

/-- C2 (amended): a tap on an unknown id logs a warning and never starts
a playback; from `Idle` the state is unchanged (only the warning
counter moves), while from `Playing` a different id the active animation
is first stopped, so the engine ends `Idle` rather than unchanged. -/
theorem c2_unknown_id_amended (e : Engine) (idx : IndexMap) (id : ItemId) (el : ElemId)
    (hidx : e.indexMap = some idx) (hid : alookup idx id = none) (hne : id ≠ "") :
    (e.activeState = none →
      handleTap e ⟨true, some id, el⟩ = .ok { e with warns := e.warns + 1 }) ∧
    (∀ a, e.activeState = some a → a.id ≠ id → a.id ≠ "" →
      handleTap e ⟨true, some id, el⟩ =
        .ok { stopActiveAnimation e with warns := (stopActiveAnimation e).warns + 1 } ∧
      (stopActiveAnimation e).activeState = none) := by
  constructor
  · intro hact
    rw [handleTap_idle e ⟨true, some id, el⟩ id rfl rfl hne hact]
    exact play_unknown e id el idx hidx hid
  · intro a hact hdiff hnemp
    refine ⟨?_, stop_activeState e⟩
    rw [handleTap_switch e ⟨true, some id, el⟩ id a rfl rfl hne hact hdiff hnemp]
    exact play_unknown _ id el idx (by rw [stop_indexMap]; exact hidx) hid

theorem c2_witness :
    handleTap exampleLoaded ⟨true, some "zz", 3⟩ =
      .ok { exampleLoaded with warns := exampleLoaded.warns + 1 } ∧
    handleTap ePlayA ⟨true, some "zz", 6⟩ =
      .ok { stopActiveAnimation ePlayA with warns := (stopActiveAnimation ePlayA).warns + 1 } :=
  ⟨(c2_unknown_id_amended exampleLoaded exampleIdx "zz" 3 rfl (by decide) (by decide)).1 rfl,
   ((c2_unknown_id_amended ePlayA exampleIdx "zz" 6 rfl (by decide) (by decide)).2
     ⟨"a", 5, 2⟩ (by decide) (by decide) (by decide)).1⟩

/-- C3 as stated is false: the observer is built with `threshold: 0` and
acts on `!entry.isIntersecting`, so a departure from *full* intersection
to *partial* intersection (ratio 50 of 100) does not trigger
reclamation — the animation keeps playing. -/
theorem c3_counterexample :
    ePlayA.activeState.map (fun a => a.imgEl) = some 5 ∧
    (50 : Nat) < 100 ∧
    observerCallback ePlayA [⟨5, 50⟩] = ePlayA ∧
    (observerCallback ePlayA [⟨5, 50⟩]).activeState = some ⟨"a", 5, 2⟩ := by
  exact ⟨by decide, by decide, by decide, by decide⟩

/-- C3 (amended): reclamation is edge-triggered on the element ceasing
to intersect the viewport at all (`isIntersecting` false, ratio 0): in
that case, if the departed element is still the active playback's
element, `stop()` runs (state to `Idle`, handle revoked); entries that
still intersect, or that target a non-active element, change nothing. -/
theorem c3_reclaim_on_no_intersection (e : Engine) (a : ActiveSt)
    (ha : e.activeState = some a) :
    observerCallback e [⟨a.imgEl, 0⟩] = stopActiveAnimation e ∧
    (observerCallback e [⟨a.imgEl, 0⟩]).activeState = none ∧
    a.animUrl ∈ (observerCallback e [⟨a.imgEl, 0⟩]).revoked ∧
    (∀ en : VEntry, isIntersecting en = true → observerCallback e [en] = e) ∧
    (∀ en : VEntry, e.activeState.map (fun x => x.imgEl) ≠ some en.target →
      observerCallback e [en] = e) := by
  have hcb : observerCallback e [⟨a.imgEl, 0⟩] = stopActiveAnimation e := by
    rw [observerCallback_cons]
    have hcond : (if ¬ isIntersecting ⟨a.imgEl, 0⟩ = true ∧
        e.activeState.map (fun x => x.imgEl) = some (VEntry.mk a.imgEl 0).target
        then stopActiveAnimation e else e) = stopActiveAnimation e :=
      if_pos ⟨by simp [isIntersecting], by rw [ha]; rfl⟩
    rw [hcond]
    rfl
  refine ⟨hcb, by rw [hcb]; exact stop_activeState e, ?_, ?_, ?_⟩
  · rw [hcb, stop_revoked_active e a ha]
    simp
  · intro en hi
    rw [observerCallback_cons]
    have hcond : (if ¬ isIntersecting en = true ∧
        e.activeState.map (fun x => x.imgEl) = some en.target
        then stopActiveAnimation e else e) = e :=
      if_neg (fun hc => hc.1 hi)
    rw [hcond]
    rfl
  · intro en hne
    rw [observerCallback_cons]
    have hcond : (if ¬ isIntersecting en = true ∧
        e.activeState.map (fun x => x.imgEl) = some en.target
        then stopActiveAnimation e else e) = e :=
      if_neg (fun hc => hne hc.2)
    rw [hcond]
    rfl

theorem c3_witness :
    ePlayA.activeState = some ⟨"a", 5, 2⟩ ∧
    observerCallback ePlayA [⟨5, 0⟩] = stopActiveAnimation ePlayA ∧
    (observerCallback ePlayA [⟨5, 0⟩]).activeState = none ∧
    (2 : Nat) ∈ (observerCallback ePlayA [⟨5, 0⟩]).revoked :=
  ⟨by decide,
   (c3_reclaim_on_no_intersection ePlayA ⟨"a", 5, 2⟩ (by decide)).1,
   (c3_reclaim_on_no_intersection ePlayA ⟨"a", 5, 2⟩ (by decide)).2.1,
   (c3_reclaim_on_no_intersection ePlayA ⟨"a", 5, 2⟩ (by decide)).2.2.1⟩

/-- C4 as stated is false: `initThumbnails` has no per-entry error
handling — accessing `meta.thumb.offset` on an entry without a `thumb`
field throws, aborting the whole batch; the later well-formed entry "b"
never receives a thumbnail handle. -/
theorem c4_counterexample :
    (("b", ⟨1, 1, some ⟨0, 4⟩, some ⟨4, 8⟩⟩) : ItemId × Entry) ∈ c4Idx ∧
    initThumbnails c4Engine = .error c4ErrState ∧
    alookup c4ErrState.thumbUrls "b" = none := by
  refine ⟨by decide, by rfl, by decide⟩

/-- C4 (amended): during thumbnail materialization, the first entry with
a missing `thumb` field makes `initThumbnails` throw, aborting the
batch: every id at or after the malformed entry (not already cached)
ends up with no thumbnail handle. -/
theorem c4_malformed_aborts (e : Engine) (buf : Bytes) (pre post : IndexMap)
    (id0 : ItemId) (m0 : Entry)
    (hidx : e.indexMap = some (pre ++ (id0, m0) :: post)) (hbuf : e.buffer = some buf)
    (hwf : ∀ p ∈ pre, p.2.thumb.isSome = true) (hm0 : m0.thumb = none) :
    ∃ e1, initThumbnails e = .error e1 ∧
      (∀ i, alookup e.thumbUrls i = none → i ∉ pre.map (fun p => p.1) →
        alookup e1.thumbUrls i = none) := by
  obtain ⟨e1, he1, hlook⟩ := initThumbList_aborts pre e buf id0 m0 post hwf hm0
  refine ⟨e1, ?_, hlook⟩
  unfold initThumbnails
  rw [hidx, hbuf]
  exact he1

theorem c4_witness :
    ∃ e1, initThumbnails c4Engine = .error e1 ∧
      (∀ i, alookup c4Engine.thumbUrls i = none →
        i ∉ ([] : IndexMap).map (fun p => p.1) →
        alookup e1.thumbUrls i = none) :=
  c4_malformed_aborts c4Engine examplePayload []
    [("b", ⟨1, 1, some ⟨0, 4⟩, some ⟨4, 8⟩⟩)] "a" ⟨1, 1, none, some ⟨0, 1⟩⟩
    rfl rfl (by intro p hp; simp at hp) rfl

/-- C1: for every sequence of tap events delivered to a successfully
loaded engine, at most one animation resource handle is alive at any
time — every prefix of the tap sequence is itself such a sequence, so
the bound holds at every intermediate state.  (The hypothesis on
`parseIdx` records that `JSON.parse` yields unique object keys.) -/
theorem c1_single_active_anim (parseIdx : Bytes → Option IndexMap) (bytes : Bytes)
    (e1 : Engine)
    (hpk : ∀ idx, parseIdx ((bytes.drop 4).take (readU32LE bytes)) = some idx →
      (idx.map (fun p => p.1)).Nodup)
    (hload : load parseIdx true bytes initEngine = .ok e1)
    (ts : List TapTarget) :
    liveAnimCount (runTaps e1 ts) ≤ 1 := by
  obtain ⟨hInv, _⟩ := load_init_inv parseIdx bytes e1 hpk hload
  have hInv2 : Inv (runTaps e1 ts) := inv_runTaps e1 ts hInv
  cases hact : (runTaps e1 ts).activeState with
  | none =>
      rw [liveAnim_idle _ hInv2 hact]
      exact Nat.zero_le _
  | some a =>
      rw [liveAnim_active _ hInv2 a hact]

theorem c1_witness :
    load exampleParse true exampleBlob initEngine = .ok exampleLoaded ∧
    liveAnimCount (runTaps exampleLoaded
      [⟨true, some "a", 5⟩, ⟨true, some "b", 6⟩, ⟨true, some "zz", 7⟩]) ≤ 1 :=
  ⟨rfl,
   c1_single_active_anim exampleParse exampleBlob exampleLoaded
     (by
       intro idx h
       rw [show exampleParse ((exampleBlob.drop 4).take (readU32LE exampleBlob)) =
         some exampleIdx from rfl] at h
       cases h
       decide)
     rfl _⟩

/-- C5 as stated is false: the operation sequence
`load; load; dispose()` leaks resource handles — the second load's
`initThumbnails` overwrites the thumbnail map entries without revoking
the first load's Blob URLs, and `dispose` only revokes the values still
in the map.  Concretely handle 0 (a thumbnail handle) is allocated and
never revoked. -/
theorem c5_counterexample :
    c5Final.allocs.length = 4 ∧
    (c5Final.allocs.get? 0).map (fun a => a.kind) = some HKind.thumb ∧
    (c5Final.allocs.get? 0).map (fun a => a.handle) = some 0 ∧
    c5Final.revoked.count 0 = 0 := by
  exact ⟨by decide, by decide, by decide, by decide⟩

/-- C5 (amended): for every sequence with exactly one successful `load`
followed by any taps, stops, and visibility events and ending in
`dispose()`, zero resource handles remain unreleased: every handle ever
created (thumbnail or animation) appears exactly once in the revocation
log, and the handle cache, buffer and index references are cleared. -/
theorem c5_single_load_dispose_releases_all (parseIdx : Bytes → Option IndexMap)
    (bytes : Bytes) (e1 : Engine)
    (hpk : ∀ idx, parseIdx ((bytes.drop 4).take (readU32LE bytes)) = some idx →
      (idx.map (fun p => p.1)).Nodup)
    (hload : load parseIdx true bytes initEngine = .ok e1)
    (evs : List Ev) :
    (∀ a ∈ (dispose (runEvs e1 evs)).allocs,
      (dispose (runEvs e1 evs)).revoked.count a.handle = 1) ∧
    (dispose (runEvs e1 evs)).thumbUrls = [] ∧
    (dispose (runEvs e1 evs)).buffer = none ∧
    (dispose (runEvs e1 evs)).indexMap = none ∧
    (dispose (runEvs e1 evs)).activeState = none := by
  obtain ⟨hInv, _⟩ := load_init_inv parseIdx bytes e1 hpk hload
  exact ⟨dispose_releases _ (inv_runEvs e1 evs hInv),
    dispose_thumbUrls _, dispose_buffer _, dispose_indexMap _, dispose_activeState _⟩

theorem c5_witness :
    load exampleParse true exampleBlob initEngine = .ok exampleLoaded ∧
    (∀ a ∈ (dispose (runEvs exampleLoaded
        [.tap ⟨true, some "a", 5⟩, .vis [⟨5, 50⟩], .tap ⟨true, some "b", 6⟩, .stop,
         .tap ⟨true, some "a", 5⟩])).allocs,
      (dispose (runEvs exampleLoaded
        [.tap ⟨true, some "a", 5⟩, .vis [⟨5, 50⟩], .tap ⟨true, some "b", 6⟩, .stop,
         .tap ⟨true, some "a", 5⟩])).revoked.count a.handle = 1) :=
  ⟨rfl,
   (c5_single_load_dispose_releases_all exampleParse exampleBlob exampleLoaded
     (by
       intro idx h
       rw [show exampleParse ((exampleBlob.drop 4).take (readU32LE exampleBlob)) =
         some exampleIdx from rfl] at h
       cases h
       decide)
     rfl _).1⟩

/-- C7: on an engine playing id A, a tap on a different known id B (on a
different image element) first releases A's handle — it is revoked, A's
element gets its thumbnail back as `src`, and A's element is no longer
observed — and then creates B's handle (a fresh one, distinct from A's);
the final state is `Playing(B)` only: exactly one animation handle is
alive. -/
theorem c7_switch_releases_then_plays (e : Engine) (hInv : Inv e) (a : ActiveSt)
    (ha : e.activeState = some a) (idx : IndexMap) (hidx : e.indexMap = some idx)
    (idB : ItemId) (hne : idB ≠ "") (hdiff : a.id ≠ idB) (metaB : Entry)
    (hB : alookup idx idB = some metaB) (sp : Span) (hsp : metaB.anim = some sp)
    (buf : Bytes) (hbuf : e.buffer = some buf) (el : ElemId) (helem : el ≠ a.imgEl) :
    ∃ e2, handleTap e ⟨true, some idB, el⟩ = .ok e2 ∧
      e2.activeState = some ⟨idB, el, e.nextUrl⟩ ∧
      a.animUrl ∈ e2.revoked ∧
      a.animUrl ≠ e.nextUrl ∧
      a.imgEl ∉ e2.observed ∧
      alookup e2.srcs a.imgEl = some (alookup e.thumbUrls a.id) ∧
      liveAnimCount e2 = 1 := by
  have hnemp : a.id ≠ "" := hInv.active_nonempty a ha
  have hInvG : Inv (stopActiveAnimation e) := inv_stop e hInv
  have hplay := play_ok_spec (stopActiveAnimation e) idB el idx metaB sp buf
    (by rw [stop_indexMap]; exact hidx) hB hsp (by rw [stop_buffer]; exact hbuf)
  have htap : handleTap e ⟨true, some idB, el⟩ =
      playAnimation (stopActiveAnimation e) idB el :=
    handleTap_switch e _ idB a rfl rfl hne ha hdiff hnemp
  have hmemA : a.animUrl ∈ liveRefs e := by
    unfold liveRefs
    rw [activeRef_eq_single e a ha]
    exact List.mem_append_right _ (by simp)
  have hobs : a.imgEl ∉ (stopActiveAnimation e).observed := by
    rw [stop_eq_of_active e a ha]
    intro hc
    rw [List.mem_filter] at hc
    simp at hc
  rw [htap, hplay]
  refine ⟨_, rfl, ?_, ?_, ?_, ?_, ?_, ?_⟩
  · dsimp only
    rw [stop_nextUrl]
  · dsimp only
    rw [stop_revoked_active e a ha]
    simp
  · exact Nat.ne_of_lt (hInv.live_lt _ hmemA)
  · dsimp only
    by_cases hel : el ∈ (stopActiveAnimation e).observed
    · rw [if_pos hel]; exact hobs
    · rw [if_neg hel]
      intro hc
      rcases List.mem_append.mp hc with hc | hc
      · exact hobs hc
      · have : a.imgEl = el := by simpa using hc
        exact helem this.symm
  · dsimp only
    rw [alookup_mapSet_ne _ el a.imgEl _ helem, stop_eq_of_active e a ha]
    dsimp only
    exact alookup_mapSet_self e.srcs a.imgEl _
  · have hInvE2 := inv_play_ok (stopActiveAnimation e) idB el
      (sliceBytes buf ((stopActiveAnimation e).payloadStart + sp.off)
        ((stopActiveAnimation e).payloadStart + sp.off + sp.len))
      hInvG (stop_activeState e) hne
    exact liveAnim_active _ hInvE2 ⟨idB, el, (stopActiveAnimation e).nextUrl⟩ rfl

theorem c7_witness :
    ePlayA.activeState = some ⟨"a", 5, 2⟩ ∧
    (∃ e2, handleTap ePlayA ⟨true, some "b", 6⟩ = .ok e2 ∧
      e2.activeState = some ⟨"b", 6, ePlayA.nextUrl⟩ ∧
      (2 : Nat) ∈ e2.revoked ∧
      (2 : Nat) ≠ ePlayA.nextUrl ∧
      (5 : Nat) ∉ e2.observed ∧
      alookup e2.srcs 5 = some (alookup ePlayA.thumbUrls "a") ∧
      liveAnimCount e2 = 1) :=
  ⟨by decide,
   c7_switch_releases_then_plays ePlayA
     (by
       refine inv_tapStep exampleLoaded ⟨true, some "a", 5⟩ ?_
       exact (load_init_inv exampleParse exampleBlob exampleLoaded
         (by
           intro idx h
           rw [show exampleParse ((exampleBlob.drop 4).take (readU32LE exampleBlob)) =
             some exampleIdx from rfl] at h
           cases h
           decide)
         rfl).1)
     ⟨"a", 5, 2⟩ (by decide) exampleIdx (by decide) "b" (by decide) (by decide)
     ⟨7, 9, some ⟨12, 2⟩, some ⟨14, 3⟩⟩ (by decide) ⟨14, 3⟩ (by decide)
     exampleBlob (by decide) 6 (by decide)⟩

/-- C8: from `Idle`, tapping a known id X's element creates a fresh
animation handle and transitions to `Playing(X)`; tapping the same
element again returns the engine to `Idle`, restores the element's
`src` to X's thumbnail handle, and revokes the animation handle created
by the first tap (exactly once) — no animation handle stays alive. -/
theorem c8_toggle_returns_idle (e : Engine) (hInv : Inv e) (hact : e.activeState = none)
    (idx : IndexMap) (hidx : e.indexMap = some idx) (id : ItemId) (hne : id ≠ "")
    (meta : Entry) (hid : alookup idx id = some meta) (sp : Span)
    (hsp : meta.anim = some sp) (buf : Bytes) (hbuf : e.buffer = some buf)
    (th : Nat) (hth : alookup e.thumbUrls id = some th) (el : ElemId) :
    ∃ e1, handleTap e ⟨true, some id, el⟩ = .ok e1 ∧
      e1.activeState = some ⟨id, el, e.nextUrl⟩ ∧
      ∃ e2, handleTap e1 ⟨true, some id, el⟩ = .ok e2 ∧
        e2.activeState = none ∧
        alookup e2.srcs el = some (some th) ∧
        e2.revoked.count e.nextUrl = 1 ∧
        liveAnimCount e2 = 0 := by
  rw [handleTap_idle e ⟨true, some id, el⟩ id rfl rfl hne hact,
    play_ok_spec e id el idx meta sp buf hidx hid hsp hbuf]
  refine ⟨_, rfl, rfl, ?_⟩
  rw [handleTap_same _ ⟨true, some id, el⟩ id ⟨id, el, e.nextUrl⟩ rfl rfl hne rfl rfl]
  refine ⟨_, rfl, stop_activeState _, ?_, ?_, ?_⟩
  · rw [stop_eq_of_active _ ⟨id, el, e.nextUrl⟩ rfl]
    dsimp only
    rw [alookup_mapSet_self, hth]
  · rw [stop_revoked_active _ ⟨id, el, e.nextUrl⟩ rfl]
    dsimp only
    rw [List.count_append]
    have h0 : e.revoked.count e.nextUrl = 0 := by
      rw [List.count_eq_zero]
      intro hc
      exact absurd (hInv.revoked_lt _ hc) (Nat.lt_irrefl _)
    rw [h0]
    simp
  · have hInvE1 := inv_play_ok e id el
      (sliceBytes buf (e.payloadStart + sp.off) (e.payloadStart + sp.off + sp.len))
      hInv hact hne
    exact liveAnim_idle _ (inv_stop _ hInvE1) (stop_activeState _)

theorem c8_witness :
    exampleLoaded.activeState = none ∧
    (∃ e1, handleTap exampleLoaded ⟨true, some "a", 5⟩ = .ok e1 ∧
      e1.activeState = some ⟨"a", 5, exampleLoaded.nextUrl⟩ ∧
      ∃ e2, handleTap e1 ⟨true, some "a", 5⟩ = .ok e2 ∧
        e2.activeState = none ∧
        alookup e2.srcs 5 = some (some 0) ∧
        e2.revoked.count exampleLoaded.nextUrl = 1 ∧
        liveAnimCount e2 = 0) :=
  ⟨by decide,
   c8_toggle_returns_idle exampleLoaded
     ((load_init_inv exampleParse exampleBlob exampleLoaded
       (by
         intro idx h
         rw [show exampleParse ((exampleBlob.drop 4).take (readU32LE exampleBlob)) =
           some exampleIdx from rfl] at h
         cases h
         decide)
       rfl).1)
     (by decide) exampleIdx (by decide) "a" (by decide)
     ⟨10, 10, some ⟨0, 4⟩, some ⟨4, 8⟩⟩ (by decide) ⟨4, 8⟩ (by decide)
     exampleBlob (by decide) 0 (by decide) 5⟩

/-- C9: after a successful `load`, the stored payload base equals 4 (the
header size) plus the index byte length read little-endian from the
header; every thumbnail handle is backed by exactly the bytes
`[payloadBase + thumb.offset, payloadBase + thumb.offset + thumb.length)`
of the raw buffer, and the animation handle created by a tap on a known
id is backed by exactly
`[payloadBase + anim.offset, payloadBase + anim.offset + anim.length)`. -/
theorem c9_offsets_and_slices (parseIdx : Bytes → Option IndexMap) (bytes : Bytes)
    (e1 : Engine)
    (hpk : ∀ idx, parseIdx ((bytes.drop 4).take (readU32LE bytes)) = some idx →
      (idx.map (fun p => p.1)).Nodup)
    (hload : load parseIdx true bytes initEngine = .ok e1) :
    e1.payloadStart = 4 + readU32LE bytes ∧
    e1.buffer = some bytes ∧
    ∃ idx, e1.indexMap = some idx ∧
      (∀ id meta sp, alookup idx id = some meta → meta.thumb = some sp →
        ∃ h bs, alookup e1.thumbUrls id = some h ∧
          Alloc.mk h HKind.thumb bs ∈ e1.allocs ∧
          (4 + readU32LE bytes + sp.off + sp.len ≤ bytes.length → bs.length = sp.len) ∧
          ∀ k, k < sp.len → bs.get? k = bytes.get? (4 + readU32LE bytes + sp.off + k)) ∧
      (∀ id meta sp el, alookup idx id = some meta → meta.anim = some sp → id ≠ "" →
        ∃ e2 bs, handleTap e1 ⟨true, some id, el⟩ = .ok e2 ∧
          e2.activeState = some ⟨id, el, e1.nextUrl⟩ ∧
          Alloc.mk e1.nextUrl HKind.anim bs ∈ e2.allocs ∧
          (4 + readU32LE bytes + sp.off + sp.len ≤ bytes.length → bs.length = sp.len) ∧
          ∀ k, k < sp.len → bs.get? k = bytes.get? (4 + readU32LE bytes + sp.off + k)) := by
  obtain ⟨idx, hparse, hlen, hrun⟩ := load_ok_spec parseIdx true bytes initEngine e1 hload
  have hf := initThumbList_frame idx _ e1 bytes (Or.inl hrun)
  obtain ⟨hInv1, hact1⟩ := load_init_inv parseIdx bytes e1 hpk hload
  have hps1 : e1.payloadStart = 4 + readU32LE bytes := hf.1
  have hbuf1 : e1.buffer = some bytes := hf.2.1
  have hidx1 : e1.indexMap = some idx := hf.2.2.1
  refine ⟨hps1, hbuf1, idx, hidx1, ?_, ?_⟩
  · intro id meta sp hmeta hthumb
    obtain ⟨sp', h, bs, hsp', hlook, hmem, hbs⟩ :=
      initThumbList_backing idx _ bytes (hpk idx hparse) e1 hrun id meta
        (alookup_some_mem idx id meta hmeta)
    rw [hthumb] at hsp'
    have hspEq : sp = sp' := by injection hsp'
    subst hspEq
    subst hbs
    refine ⟨h, _, hlook, hmem, ?_, ?_⟩
    · intro hbound
      exact sliceBytes_length bytes _ sp.len hbound
    · intro k hk
      exact sliceBytes_get?_eq bytes _ sp.len k hk
  · intro id meta sp el hmeta hanim hne
    rw [handleTap_idle e1 ⟨true, some id, el⟩ id rfl rfl hne hact1,
      play_ok_spec e1 id el idx meta sp bytes hidx1 hmeta hanim hbuf1]
    refine ⟨_,
      sliceBytes bytes (e1.payloadStart + sp.off) (e1.payloadStart + sp.off + sp.len),
      rfl, rfl, List.mem_append_right _ (by simp), ?_, ?_⟩
    · intro hbound
      rw [hps1]
      exact sliceBytes_length bytes _ sp.len (by rw [← hps1]; exact (by rw [hps1]; exact hbound))
    · intro k hk
      rw [hps1]
      exact sliceBytes_get?_eq bytes _ sp.len k hk

theorem c9_witness :
    load exampleParse true exampleBlob initEngine = .ok exampleLoaded ∧
    exampleLoaded.payloadStart = 4 + readU32LE exampleBlob ∧
    exampleLoaded.buffer = some exampleBlob :=
  ⟨rfl,
   (c9_offsets_and_slices exampleParse exampleBlob exampleLoaded
     (by
       intro idx h
       rw [show exampleParse ((exampleBlob.drop 4).take (readU32LE exampleBlob)) =
         some exampleIdx from rfl] at h
       cases h
       decide)
     rfl).1,
   (c9_offsets_and_slices exampleParse exampleBlob exampleLoaded
     (by
       intro idx h
       rw [show exampleParse ((exampleBlob.drop 4).take (readU32LE exampleBlob)) =
         some exampleIdx from rfl] at h
       cases h
       decide)
     rfl).2.1⟩

end GalleryModel
